import Mathlib

/-!
Verification of `version_middleware.py`: an ASGI middleware that extracts an
API version from the Accept header (vendor-tree media type), plus a FastAPI
route class that dispatches on the extracted version.

The Python source is embedded shallowly:
* the Accept-header pattern `^application/vnd\.{vendor_prefix}\.v([0-9]+)\+.*`
  built in `AcceptHeaderVersionMiddleware.__init__` and run by `re.search` is
  modelled by a small backtracking matcher (`runs`, `acceptCapture`) over the
  regex fragment this program can construct (literal characters, `.`-any,
  greedy `+` and `*` on single-character atoms, the `[0-9]+` capture group);
  the vendor prefix is interpolated into the pattern unescaped, exactly as in
  the source, via `parseVendorPat`;
* the ASGI scope is a record `Scope`; Python `KeyError` / `AttributeError` /
  `HTTPException` are an explicit `PyError`; side effects of a route handler
  are an event trace `List HandleEvent`.
-/

/-- Single-character regex atoms appearing in the pattern the middleware
builds: a literal character, `.` (any character except newline, as in Python
without `DOTALL`), and the character class `[0-9]`. -/
inductive Atom where
  | lit (c : Char)
  | anyChar
  | digit
deriving DecidableEq

/-- Whether an atom matches one character, with Python `re` semantics. -/
def atomMatch : Atom → Char → Bool
  | Atom.lit c0, c => c = c0
  | Atom.anyChar, c => c ≠ '\n'
  | Atom.digit, c => c.isDigit

/-- The regex fragment the program can construct: empty pattern, atoms,
greedy `a*` and `a+` over single-character atoms, and concatenation. -/
inductive RE where
  | eps
  | atom (a : Atom)
  | star (a : Atom)
  | plus (a : Atom)
  | seq (r1 r2 : RE)
deriving DecidableEq

/-- Suffixes remaining after `a*` consumes a prefix of `s`, in Python's
greedy backtracking order (longest consumption first). -/
def runsStar (a : Atom) : List Char → List (List Char)
  | [] => [[]]
  | c :: s => if atomMatch a c then runsStar a s ++ [c :: s] else [c :: s]

/-- Suffixes remaining after `a+` consumes a non-empty prefix of `s`,
greedy order. -/
def runsPlus (a : Atom) : List Char → List (List Char)
  | [] => []
  | c :: s => if atomMatch a c then runsStar a s else []

/-- Suffixes remaining after `r` consumes a prefix of `s`, in Python's
backtracking order. -/
def runs : RE → List Char → List (List Char)
  | RE.eps, s => [s]
  | RE.atom _, [] => []
  | RE.atom a, c :: s => if atomMatch a c then [s] else []
  | RE.star a, s => runsStar a s
  | RE.plus a, s => runsPlus a s
  | RE.seq r1 r2, s => (runs r1 s).flatMap (runs r2)

/-- Concatenation of a list of regexes. -/
def seqOf (rs : List RE) : RE := rs.foldr RE.seq RE.eps

/-- A literal word as a regex (each character a literal atom). -/
def litSeq (w : List Char) : RE := seqOf (w.map fun c => RE.atom (Atom.lit c))

/-- Characters that are special in a Python regular expression (outside a
character class). -/
def pyMeta (c : Char) : Bool :=
  (['.', '+', '*', '?', '(', ')', '[', ']', '\x7b', '\x7d', '\\', '|', '^', '$']).contains c

/-- Parse the vendor-prefix characters as the Python regex fragment they
become when interpolated unescaped into
`rf"^application/vnd\.{v}\.v([0-9]+)\+.*"`.  Literal characters, `.`, and
postfix `+` / `*` on the preceding atom are modelled; `none` means the prefix
uses a regex feature outside the modelled fragment. -/
def parseVendorPat : List RE → List Char → Option (List RE)
  | acc, [] => some acc.reverse
  | acc, c :: rest =>
    if c = '.' then parseVendorPat (RE.atom Atom.anyChar :: acc) rest
    else if c = '+' then
      match acc with
      | RE.atom a :: acc2 => parseVendorPat (RE.plus a :: acc2) rest
      | _ => none
    else if c = '*' then
      match acc with
      | RE.atom a :: acc2 => parseVendorPat (RE.star a :: acc2) rest
      | _ => none
    else if pyMeta c then none
    else parseVendorPat (RE.atom (Atom.lit c) :: acc) rest

/-- The compiled vendor segment of `self.accept_regex` as built in
`AcceptHeaderVersionMiddleware.__init__` (the prefix is interpolated into the
pattern unescaped); `none` when the prefix lies outside the modelled regex
fragment. -/
def acceptRegex? (vp : String) : Option RE :=
  (parseVendorPat [] vp.toList).map seqOf

/-- `re.search(self.accept_regex, header).group(1)`: the pattern is anchored
by `^`, so it can only match at the start; the scaffold is
`application/vnd\.` + vendor segment + `\.v`, then the capture group
`([0-9]+)` (greedy), then the literal `+`, then `.*`.  Returns the captured
digit string of the first match in backtracking order, `none` if the header
does not match. -/
def acceptCapture (vendorRE : RE) (s : List Char) : Option (List Char) :=
  (runs (RE.seq (litSeq "application/vnd.".toList)
        (RE.seq vendorRE (litSeq ".v".toList))) s).findSome? fun s1 =>
    (runsPlus Atom.digit s1).findSome? fun s2 =>
      ((runs (RE.seq (RE.atom (Atom.lit '+')) (RE.star Atom.anyChar)) s2).head?).map fun _ =>
        s1.take (s1.length - s2.length)

/-- End-to-end extraction: compile the pattern for vendor prefix `vp`, then
run it on the Accept header.  Outer `none`: pattern outside the modelled
fragment; inner `none`: the header does not match and the caller keeps the
default. -/
def extractVersion (vp accept : String) : Option (Option String) :=
  (acceptRegex? vp).map fun r => (acceptCapture r accept.toList).map String.mk

/-- Whether the compiled pattern for `vp` matches the header at all. -/
def acceptMatchesB (vp s : String) : Option Bool :=
  (acceptRegex? vp).map fun r => (acceptCapture r s.toList).isSome

/-- If `s` starts with the literal word `w`, the remainder, else `none`. -/
def afterLit : List Char → List Char → Option (List Char)
  | [], s => some s
  | _ :: _, [] => none
  | c :: w, d :: s => if d = c then afterLit w s else none

/-- The spec's literal reading of the header contract ("the vendor prefix is
a configuration value escaped literally, not itself a pattern"): the header
literally begins with `application/vnd.` + vp + `.v`, then one or more
decimal digits, then `+`.  Stated from the spec's words, to be compared with
the matcher the source actually builds. -/
def specLiteralAcceptMatch (vp s : List Char) : Bool :=
  match afterLit ("application/vnd.".toList ++ vp ++ ".v".toList) s with
  | none => false
  | some t =>
    !(t.takeWhile Char.isDigit).isEmpty &&
      ((t.dropWhile Char.isDigit).head? == some '+')

/-- Python exceptions that the embedded code can raise. -/
inductive PyError where
  | keyError (key : String)
  | attributeError (name : String)
  | httpException (status_code : Nat) (detail : String)
deriving DecidableEq

/-- The ASGI scope: `type`, the header list (byte pairs, modelled as decoded
latin-1 strings), the two fields the middleware writes, whether the `"app"`
key is present, the request path, and all remaining scope entries bundled
opaquely in `rest`. -/
structure Scope where
  type : String
  path : String
  headers : List (String × String)
  requested_version : Option String
  latest_version : Option String
  hasApp : Bool
  rest : List (String × String)
deriving DecidableEq

/-- `scope["requested_version"]`: `KeyError` when absent. -/
def Scope.getRequested (s : Scope) : Except PyError String :=
  match s.requested_version with
  | some v => Except.ok v
  | none => Except.error (PyError.keyError "requested_version")

/-- `scope["latest_version"]`: `KeyError` when absent. -/
def Scope.getLatest (s : Scope) : Except PyError String :=
  match s.latest_version with
  | some v => Except.ok v
  | none => Except.error (PyError.keyError "latest_version")

/-- `dict(scope["headers"])[b"accept"]`: building the dict keeps the last
value for a duplicated key, so look the name up from the right. -/
def headerLookup (headers : List (String × String)) : Option String :=
  headers.reverse.lookup "accept"

/-- `AcceptHeaderVersionMiddleware.__call__` up to the inner `self.app` call:
for an `http` or `websocket` scope it writes `latest_version` and
`requested_version := latest_version`, then, if an Accept header is present
and the pattern matches, overwrites `requested_version` with the captured
group; any other scope type is passed through untouched.  Returns the scope
the inner application receives; `none` only when the header must be matched
against a pattern outside the modelled regex fragment. -/
def middlewareCall (r? : Option RE) (latest : String) (scope : Scope) : Option Scope :=
  if scope.type = "http" ∨ scope.type = "websocket" then
    let scope1 : Scope :=
      { scope with latest_version := some latest, requested_version := some latest }
    match headerLookup scope.headers with
    | none => some scope1
    | some accept =>
      match r? with
      | none => none
      | some r =>
        match acceptCapture r accept.toList with
        | none => some scope1
        | some cap => some { scope1 with requested_version := some (String.mk cap) }
  else
    some scope

/-- A Python function object as the router sees it: the `__api_version__`
attribute (absent unless the `version` decorator ran) and the dict the
endpoint returns. -/
structure PyFunc where
  api_version : Option String
  body : List (String × String)
deriving DecidableEq

/-- `VersionedAPIRouter` carries no state that version matching reads. -/
structure VersionedAPIRouter where
  deriving DecidableEq

/-- `VersionedAPIRouter.version`: the decorator sets
`func.__api_version__ = api_version` and returns the function. -/
def VersionedAPIRouter.version (_router : VersionedAPIRouter) (api_version : String)
    (func : PyFunc) : PyFunc :=
  { func with api_version := some api_version }

/-- Starlette's `Match` enum. -/
inductive RMatch where
  | noMatch
  | partMatch
  | fullMatch
deriving DecidableEq

/-- A `VersionedAPIRoute`: the endpoint function plus the inherited
`APIRoute.matches` behaviour (`super().matches`), which is the external
path-matching engine and is kept abstract as a function field. -/
structure VersionedAPIRoute where
  endpoint : PyFunc
  superMatches : Scope → RMatch × Scope

/-- `VersionedAPIRoute.endpoint_version`: `str(self.endpoint.__api_version__)`,
an `AttributeError` when the endpoint was never decorated (`str` of a string
is the string itself). -/
def VersionedAPIRoute.endpoint_version (r : VersionedAPIRoute) : Except PyError String :=
  match r.endpoint.api_version with
  | some v => Except.ok v
  | none => Except.error (PyError.attributeError "__api_version__")

/-- `VersionedAPIRoute.is_version_matching`: reads
`scope["requested_version"]`, computes `is_latest`, and returns
`(is_latest and requested_version == scope["latest_version"]) or
self.endpoint_version == requested_version`; `scope["latest_version"]` is
only read when `is_latest` holds (Python short-circuits `and`). -/
def VersionedAPIRoute.is_version_matching (r : VersionedAPIRoute) (scope : Scope) :
    Except PyError Bool := do
  let requested ← scope.getRequested
  let v ← r.endpoint_version
  if v = "latest" then do
    let lv ← scope.getLatest
    pure (requested == lv || v == requested)
  else
    pure (v == requested)

/-- `VersionedAPIRoute.matches`: delegate to `super().matches`; `NONE` and
`PARTIAL` results are returned unchanged; a full path match is downgraded to
`PARTIAL` when the version rule fails. -/
def VersionedAPIRoute.matches (r : VersionedAPIRoute) (scope : Scope) :
    Except PyError (RMatch × Scope) := do
  let (m, child) := r.superMatches scope
  if m = RMatch.noMatch ∨ m = RMatch.partMatch then
    pure (m, child)
  else do
    let b ← r.is_version_matching scope
    if b then pure (RMatch.fullMatch, child) else pure (RMatch.partMatch, child)

/-- Observable steps of `VersionedAPIRoute.handle`: a response written to
`send`, and the execution of `super().handle` (the endpoint body). -/
inductive HandleEvent where
  | response (status : Nat) (body : String)
  | endpointRun
deriving DecidableEq

/-- `VersionedAPIRoute.handle`: on a version mismatch, raise
`HTTPException(406, ...)` when `"app" in scope`, otherwise send the
plain-text 406 response; the source then falls through to
`await super().handle(scope, receive, send)` unconditionally (there is no
`return` after sending the response), so the endpoint body always runs on
every non-raising path. -/
def VersionedAPIRoute.handle (r : VersionedAPIRoute) (scope : Scope) :
    Except PyError (List HandleEvent) := do
  let b ← r.is_version_matching scope
  let pre ←
    if b then
      pure ([] : List HandleEvent)
    else if scope.hasApp then do
      let requested ← scope.getRequested
      let latest ← scope.getLatest
      Except.error (PyError.httpException 406
        ("Requested version " ++ requested ++ " does not exist. " ++
         "Latest available version is " ++ latest ++ "."))
    else
      pure [HandleEvent.response 406 "Not Acceptable"]
  pure (pre ++ [HandleEvent.endpointRun])

/-- Outcome of routing one request. -/
inductive DispatchOutcome where
  | handled (body : List (String × String)) (events : List HandleEvent)
  | notFound
deriving DecidableEq

/-- Modelled from the spec: the dispatch loop of the external path-routing
engine (spec section 4.2), which is Starlette library code and not part of
this repository.  Routes are tried in registration order; the first `FULL`
match is handled immediately; the first `PARTIAL` match is remembered (with
its child scope) and handled only if no route matches fully; otherwise the
request is not found. -/
def dispatchList (scope : Scope) :
    List VersionedAPIRoute → Option (VersionedAPIRoute × Scope) →
    Except PyError DispatchOutcome
  | [], none => Except.ok DispatchOutcome.notFound
  | [], some (r, child) => do
    let evs ← r.handle child
    pure (DispatchOutcome.handled r.endpoint.body evs)
  | r :: rest, p? => do
    let (m, child) ← r.matches scope
    match m with
    | RMatch.fullMatch => do
      let evs ← r.handle child
      pure (DispatchOutcome.handled r.endpoint.body evs)
    | RMatch.partMatch =>
      dispatchList scope rest (if p?.isSome then p? else some (r, child))
    | RMatch.noMatch => dispatchList scope rest p?

/-- Modelled from the spec: the external path engine's own path matching
(`super().matches`), which for the example app narrows candidates to routes
registered at the request's path. -/
def pathOnlyMatch (path : String) (scope : Scope) : RMatch × Scope :=
  if scope.path = path then (RMatch.fullMatch, scope) else (RMatch.noMatch, scope)

def FOO_V1 : String := "You reached foo router version 1"

def FOO_V2 : String := "You reached foo router version 2"

def FOO_V3 : String := "You reached foo router version 3"

def FOO_LATEST : String := "This is the latest foo router"

def router : VersionedAPIRouter := {}

/-- `foo_v1`, decorated with `@router.version("1")`. -/
def foo_v1 : PyFunc :=
  router.version "1" { api_version := none, body := [("Foo Version", FOO_V1)] }

/-- `foo_v2`, decorated with `@router.version("2")`. -/
def foo_v2 : PyFunc :=
  router.version "2" { api_version := none, body := [("Foo Version", FOO_V2)] }

/-- `foo_v3`, decorated with `@router.version("3")`. -/
def foo_v3 : PyFunc :=
  router.version "3" { api_version := none, body := [("Foo Version", FOO_V3)] }

/-- `foo_latest`, decorated with `@router.version("latest")`. -/
def foo_latest : PyFunc :=
  router.version "latest" { api_version := none, body := [("Foo latest", FOO_LATEST)] }

/-- `@router.get("/foo")`: registration of an endpoint as a
`VersionedAPIRoute` at path `/foo`. -/
def mkFooRoute (f : PyFunc) : VersionedAPIRoute :=
  { endpoint := f, superMatches := pathOnlyMatch "/foo" }

/-- The four routes registered on `router`, in registration order. -/
def fooRoutes : List VersionedAPIRoute :=
  [mkFooRoute foo_v1, mkFooRoute foo_v2, mkFooRoute foo_v3, mkFooRoute foo_latest]

/-- An incoming HTTP request for `/foo` with the given headers, before the
middleware runs (FastAPI sets `scope["app"]`). -/
def fooRequest (hdrs : List (String × String)) : Scope :=
  { type := "http", path := "/foo", headers := hdrs, requested_version := none,
    latest_version := none, hasApp := true, rest := [] }

/-- The example application: middleware configured with vendor prefix
`mytestapp` and `latest_version = "4"`, then the router dispatch over the
four `/foo` routes. -/
def appHandle (hdrs : List (String × String)) : Option (Except PyError DispatchOutcome) :=
  (middlewareCall (acceptRegex? "mytestapp") "4" (fooRequest hdrs)).map fun s =>
    dispatchList s fooRoutes none


/-- The vendor pattern compiled for the example app's prefix `mytestapp`. -/
def mytestappRE : RE := (acceptRegex? "mytestapp").getD RE.eps

/-- `acceptCapture r header` is `none` for the Accept header of `scope`, when
one is present (the silent-fallback precondition of the middleware). -/
def capturesNone (r : RE) (h? : Option String) : Prop :=
  match h? with
  | none => True
  | some a => acceptCapture r a.toList = none

/-- A mismatching request reaching a route directly, without `"app"` in the
scope (the route invoked as the top-level handler). -/
def noAppScope : Scope :=
  { type := "http", path := "/foo",
    headers := [("accept", "application/vnd.mytestapp.v9+json")],
    requested_version := some "9", latest_version := some "4",
    hasApp := false, rest := [] }

/-- A request whose extracted version is `"2"` (latest `"4"`). -/
def wScope2 : Scope :=
  { type := "http", path := "/foo", headers := [],
    requested_version := some "2", latest_version := some "4",
    hasApp := true, rest := [] }

/-- A request whose extracted version is `"9"` (latest `"4"`), inside the
application (`"app"` present). -/
def wScope9 : Scope :=
  { type := "http", path := "/foo", headers := [],
    requested_version := some "9", latest_version := some "4",
    hasApp := true, rest := [] }

/-- A route whose endpoint never went through the `version` decorator, so
`__api_version__` is absent. -/
def untaggedRoute : VersionedAPIRoute :=
  { endpoint := { api_version := none, body := [] },
    superMatches := pathOnlyMatch "/foo" }

/-- A request carrying an Accept header that does not match the pattern. -/
def plainScope : Scope :=
  { type := "http", path := "/foo", headers := [("accept", "text/html")],
    requested_version := none, latest_version := none,
    hasApp := true, rest := [] }

/-- The version-matching rule of the spec, as a proposition on the declared
version `v`, the requested version `rv` and the latest version `lv`. -/
def versionRule (v rv lv : String) : Prop :=
  (v = "latest" ∧ rv = lv) ∨ v = rv

/-- The scope `plainScope` after the middleware has attached the default
version fields (latest `"4"`). -/
def plainScopeOut : Scope :=
  { plainScope with latest_version := some "4", requested_version := some "4" }

/-- A request carrying the literal header for vendor prefix `a+`, version 1. -/
def aPlusScope : Scope := fooRequest [("accept", "application/vnd.a+.v1+json")]

/-- `aPlusScope` after the middleware configured with vendor prefix `a+` and
latest version `"9"` has run: the pattern does not match the header, so the
fallback version `"9"` is kept. -/
def aPlusScopeOut : Scope :=
  { aPlusScope with latest_version := some "9", requested_version := some "9" }

instance versionRuleDecidable (v rv lv : String) : Decidable (versionRule v rv lv) := by
  unfold versionRule
  infer_instance

theorem version_rule_iff (v rv lv : String) :
    ((if v = "latest" then (rv == lv || v == rv) else (v == rv)) = true) ↔
      versionRule v rv lv := by
  unfold versionRule
  by_cases h : v = "latest" <;> simp [h]

theorem version_rule_false (v rv lv : String) (h : ¬ versionRule v rv lv) :
    (if v = "latest" then (rv == lv || v == rv) else (v == rv)) = false := by
  rcases Bool.eq_false_or_eq_true
      (if v = "latest" then (rv == lv || v == rv) else (v == rv)) with hb | hb
  · exact absurd ((version_rule_iff v rv lv).mp hb) h
  · exact hb

theorem is_version_matching_eq (r : VersionedAPIRoute) (scope : Scope) (v rv lv : String)
    (hv : r.endpoint.api_version = some v) (hrv : scope.requested_version = some rv)
    (hlv : scope.latest_version = some lv) :
    r.is_version_matching scope =
      Except.ok (if v = "latest" then (rv == lv || v == rv) else (v == rv)) := by
  unfold VersionedAPIRoute.is_version_matching Scope.getRequested Scope.getLatest
    VersionedAPIRoute.endpoint_version
  rw [hv, hrv, hlv]
  by_cases h : v = "latest" <;> simp [h, Bind.bind, Except.bind, Pure.pure, Except.pure]

theorem matches_of_superFull (r : VersionedAPIRoute) (scope child : Scope) (v rv lv : String)
    (hv : r.endpoint.api_version = some v) (hrv : scope.requested_version = some rv)
    (hlv : scope.latest_version = some lv)
    (hsm : r.superMatches scope = (RMatch.fullMatch, child)) :
    r.matches scope =
      Except.ok (if versionRule v rv lv then (RMatch.fullMatch, child)
                 else (RMatch.partMatch, child)) := by
  unfold VersionedAPIRoute.matches
  rw [hsm, is_version_matching_eq r scope v rv lv hv hrv hlv]
  by_cases h : versionRule v rv lv
  · rw [(version_rule_iff v rv lv).mpr h, if_pos h]
    simp [Bind.bind, Except.bind, Pure.pure, Except.pure]
  · rw [version_rule_false v rv lv h, if_neg h]
    simp [Bind.bind, Except.bind, Pure.pure, Except.pure]

/-- Claim C2: for every `VersionedAPIRoute` with declared version `v` and
every request context carrying `requested_version = rv` and
`latest_version = lv`, when the path matches fully, the route is a full match
iff `(v = "latest" ∧ rv = lv) ∨ v = rv` (exact string equality); when the
path matches fully but the rule fails, `matches` returns a partial match; and
path non-matches are returned unchanged before version matching runs. -/
theorem c2_matching_rule (r : VersionedAPIRoute) (scope : Scope) (v rv lv : String)
    (hv : r.endpoint.api_version = some v) (hrv : scope.requested_version = some rv)
    (hlv : scope.latest_version = some lv) :
    (∀ child, r.superMatches scope = (RMatch.fullMatch, child) →
      ((r.matches scope = Except.ok (RMatch.fullMatch, child) ↔
          ((v = "latest" ∧ rv = lv) ∨ v = rv)) ∧
        (¬ ((v = "latest" ∧ rv = lv) ∨ v = rv) →
          r.matches scope = Except.ok (RMatch.partMatch, child)))) ∧
    (∀ child, r.superMatches scope = (RMatch.noMatch, child) →
      r.matches scope = Except.ok (RMatch.noMatch, child)) := by
  constructor
  · intro child hsm
    have hm := matches_of_superFull r scope child v rv lv hv hrv hlv hsm
    by_cases h : versionRule v rv lv
    · rw [hm, if_pos h]
      exact ⟨⟨fun _ => h, fun _ => rfl⟩, fun hc => absurd h hc⟩
    · rw [hm, if_neg h]
      refine ⟨⟨fun he => ?_, fun hr => absurd hr h⟩, fun _ => rfl⟩
      exact absurd he (by simp)
  · intro child hsm
    unfold VersionedAPIRoute.matches
    rw [hsm]
    simp [Bind.bind, Except.bind, Pure.pure, Except.pure]

/-- Witness for C2 at a concrete input: the `"2"`-declared route fully
matches a request whose extracted version is `"2"`. -/
theorem c2_matching_rule_witness :
    (mkFooRoute foo_v2).matches wScope2 = Except.ok (RMatch.fullMatch, wScope2) :=
  ((c2_matching_rule (mkFooRoute foo_v2) wScope2 "2" "2" "4" rfl rfl rfl).1
    wScope2 rfl).1.mpr (Or.inr rfl)

/-- Claim C6: on a version mismatch, `handle` raises a structured
`HTTPException` carrying status 406 and the message naming the requested and
latest versions when the route runs as a nested component (`"app"` in scope),
and directly emits the plain-text response `"Not Acceptable"` with status 406
when it runs as the top-level handler. -/
theorem c6_rejection_outcome (r : VersionedAPIRoute) (scope : Scope) (v rv lv : String)
    (hv : r.endpoint.api_version = some v) (hrv : scope.requested_version = some rv)
    (hlv : scope.latest_version = some lv)
    (hmm : ¬ ((v = "latest" ∧ rv = lv) ∨ v = rv)) :
    (scope.hasApp = true →
      r.handle scope = Except.error (PyError.httpException 406
        ("Requested version " ++ rv ++ " does not exist. " ++
         "Latest available version is " ++ lv ++ "."))) ∧
    (scope.hasApp = false →
      r.handle scope =
        Except.ok [HandleEvent.response 406 "Not Acceptable", HandleEvent.endpointRun]) := by
  have hb := is_version_matching_eq r scope v rv lv hv hrv hlv
  rw [version_rule_false v rv lv hmm] at hb
  constructor <;> intro happ <;>
    · unfold VersionedAPIRoute.handle
      rw [hb, happ]
      simp [Scope.getRequested, Scope.getLatest, hrv, hlv,
        Bind.bind, Except.bind, Pure.pure, Except.pure]

/-- Witness for C6 at a concrete input: requested `"9"`, latest `"4"`,
declared `"1"`, nested invocation. -/
theorem c6_rejection_outcome_witness :
    (mkFooRoute foo_v1).handle wScope9 = Except.error (PyError.httpException 406
      ("Requested version " ++ "9" ++ " does not exist. " ++
       "Latest available version is " ++ "4" ++ ".")) :=
  (c6_rejection_outcome (mkFooRoute foo_v1) wScope9 "1" "9" "4" rfl rfl rfl
    (by decide)).1 rfl

/-- Claim C8: the version tag observed by the router (`endpoint_version`) on
a route whose endpoint was registered through the `version` decorator is
exactly the token given at registration, on every query (the embedding is
pure, and nothing in the program writes `__api_version__` after the
decorator runs). -/
theorem c8_version_tag (rt : VersionedAPIRouter) (api_version : String) (func : PyFunc)
    (pm : Scope → RMatch × Scope) :
    VersionedAPIRoute.endpoint_version
      { endpoint := rt.version api_version func, superMatches := pm } =
      Except.ok api_version := rfl

/-- Claim C10: a route whose endpoint never went through the `version`
decorator has no `__api_version__` attribute, so reading `endpoint_version`
— and hence version matching, a full-path `matches`, and `handle` — fails
with an attribute-access error instead of returning a default. -/
theorem c10_untagged_endpoint (r : VersionedAPIRoute) (scope : Scope) (rv : String)
    (hv : r.endpoint.api_version = none) (hrv : scope.requested_version = some rv) :
    r.endpoint_version = Except.error (PyError.attributeError "__api_version__") ∧
    r.is_version_matching scope = Except.error (PyError.attributeError "__api_version__") ∧
    (∀ child, r.superMatches scope = (RMatch.fullMatch, child) →
      r.matches scope = Except.error (PyError.attributeError "__api_version__")) ∧
    r.handle scope = Except.error (PyError.attributeError "__api_version__") := by
  have hev : r.endpoint_version = Except.error (PyError.attributeError "__api_version__") := by
    unfold VersionedAPIRoute.endpoint_version
    rw [hv]
  have hivm : r.is_version_matching scope =
      Except.error (PyError.attributeError "__api_version__") := by
    unfold VersionedAPIRoute.is_version_matching
    rw [hev]
    simp [Scope.getRequested, hrv, Bind.bind, Except.bind]
  refine ⟨hev, hivm, ?_, ?_⟩
  · intro child hsm
    unfold VersionedAPIRoute.matches
    rw [hsm, hivm]
    simp [Bind.bind, Except.bind]
  · unfold VersionedAPIRoute.handle
    rw [hivm]
    simp [Bind.bind, Except.bind]

/-- Witness for C10 at a concrete input: an untagged endpoint makes `handle`
fail with the attribute error. -/
theorem c10_untagged_endpoint_witness :
    untaggedRoute.handle wScope9 =
      Except.error (PyError.attributeError "__api_version__") :=
  (c10_untagged_endpoint untaggedRoute wScope9 "9" rfl rfl).2.2.2

/-- Claim C9: for `http` and `websocket` scopes the middleware modifies only
the `requested_version` and `latest_version` fields — every other scope field
is passed through unchanged — and any other scope type is passed to the inner
application entirely unchanged, receiving neither field. -/
theorem c9_frame (r? : Option RE) (lv : String) (scope : Scope) :
    (∀ s', middlewareCall r? lv scope = some s' →
      s'.type = scope.type ∧ s'.path = scope.path ∧ s'.headers = scope.headers ∧
        s'.hasApp = scope.hasApp ∧ s'.rest = scope.rest) ∧
    (scope.type ≠ "http" → scope.type ≠ "websocket" →
      middlewareCall r? lv scope = some scope) := by
  constructor
  · intro s' h
    unfold middlewareCall at h
    split at h
    · split at h
      · cases h
        exact ⟨rfl, rfl, rfl, rfl, rfl⟩
      · split at h
        · exact absurd h (by simp)
        · split at h
          · cases h
            exact ⟨rfl, rfl, rfl, rfl, rfl⟩
          · cases h
            exact ⟨rfl, rfl, rfl, rfl, rfl⟩
    · cases h
      exact ⟨rfl, rfl, rfl, rfl, rfl⟩
  · intro h1 h2
    unfold middlewareCall
    rw [if_neg]
    rintro (h | h) <;> [exact h1 h; exact h2 h]

/-- Witness for C9 at a concrete input: on `plainScope` (an HTTP request with
a non-matching Accept header) the middleware changes only the two version
fields. -/
theorem c9_frame_witness :
    plainScopeOut.type = plainScope.type ∧ plainScopeOut.path = plainScope.path ∧
    plainScopeOut.headers = plainScope.headers ∧ plainScopeOut.hasApp = plainScope.hasApp ∧
    plainScopeOut.rest = plainScope.rest :=
  (c9_frame (acceptRegex? "mytestapp") "4" plainScope).1 plainScopeOut rfl

/-- Claim C5: whenever the Accept header is absent, or present but not
matched by the compiled pattern, the middleware silently falls back:
`requested_version` is set equal to `latest_version` and no error is raised
(the returned scope is total and carries the defaults). -/
theorem c5_silent_fallback (r : RE) (lv : String) (scope : Scope)
    (htype : scope.type = "http" ∨ scope.type = "websocket")
    (hmiss : capturesNone r (headerLookup scope.headers)) :
    middlewareCall (some r) lv scope =
      some { scope with latest_version := some lv, requested_version := some lv } := by
  unfold middlewareCall
  rw [if_pos htype]
  rcases hl : headerLookup scope.headers with _ | a
  · rfl
  · have hm : acceptCapture r a.toList = none := by
      unfold capturesNone at hmiss
      rw [hl] at hmiss
      exact hmiss
    have hm2 : acceptCapture r a.data = none := hm
    simp [hm2]

/-- Witness for C5 at a concrete input: the header `text/html` does not match
and the request silently gets the default version `"4"`. -/
theorem c5_silent_fallback_witness :
    middlewareCall (some mytestappRE) "4" plainScope = some plainScopeOut :=
  c5_silent_fallback mytestappRE "4" plainScope (Or.inl rfl) rfl

/-- Claim C1 is violated by the source: after sending the plain-text 406
response in the top-level case there is no `return`, so control falls through
to `await super().handle(...)` and the version-mismatched handler body runs
anyway.  Evaluating the embedded `handle` at the failing input shows the 406
response followed by the endpoint execution. -/
theorem c1_handler_runs_after_406 :
    (mkFooRoute foo_v1).handle noAppScope =
      Except.ok [HandleEvent.response 406 "Not Acceptable", HandleEvent.endpointRun] := rfl

/-- Claim C3: in the example application (handlers at `/foo` declared for
versions 1, 2, 3 and latest; `latest_version = "4"`), a request with no
Accept header or with `application/vnd.mytestapp.v4+json` runs the
`"latest"`-declared handler, `application/vnd.mytestapp.v2+json` runs the
`"2"`-declared handler, and `application/vnd.mytestapp.v9+json` raises the
406 `HTTPException` with the message "Requested version 9 does not exist.
Latest available version is 4.". -/
theorem c3_example_routing :
    appHandle [] = some (Except.ok
      (DispatchOutcome.handled [("Foo latest", FOO_LATEST)] [HandleEvent.endpointRun])) ∧
    appHandle [("accept", "application/vnd.mytestapp.v4+json")] = some (Except.ok
      (DispatchOutcome.handled [("Foo latest", FOO_LATEST)] [HandleEvent.endpointRun])) ∧
    appHandle [("accept", "application/vnd.mytestapp.v2+json")] = some (Except.ok
      (DispatchOutcome.handled [("Foo Version", FOO_V2)] [HandleEvent.endpointRun])) ∧
    appHandle [("accept", "application/vnd.mytestapp.v9+json")] = some (Except.error
      (PyError.httpException 406
        "Requested version 9 does not exist. Latest available version is 4.")) :=
  ⟨rfl, rfl, rfl, rfl⟩

theorem runsStar_ne_nil (a : Atom) (s : List Char) : runsStar a s ≠ [] := by
  induction s with
  | nil => simp [runsStar]
  | cons c s ih =>
    unfold runsStar
    by_cases h : atomMatch a c = true
    · rw [if_pos h]
      intro he
      exact absurd (List.append_eq_nil.mp he).2 (by simp)
    · rw [if_neg h]
      simp

theorem runsStar_mem (a : Atom) (s t : List Char) :
    t ∈ runsStar a s ↔ ∃ D, s = D ++ t ∧ ∀ c ∈ D, atomMatch a c = true := by
  induction s generalizing t with
  | nil =>
    simp only [runsStar, List.mem_singleton]
    constructor
    · rintro rfl
      exact ⟨[], rfl, by simp⟩
    · rintro ⟨D, hD, -⟩
      rcases List.append_eq_nil.mp hD.symm with ⟨rfl, rfl⟩
      rfl
  | cons c s ih =>
    unfold runsStar
    by_cases h : atomMatch a c = true
    · rw [if_pos h]
      simp only [List.mem_append, List.mem_singleton, ih]
      constructor
      · rintro (⟨D, rfl, hall⟩ | rfl)
        · refine ⟨c :: D, rfl, ?_⟩
          intro x hx
          rcases List.mem_cons.mp hx with rfl | hx
          · exact h
          · exact hall x hx
        · exact ⟨[], rfl, by simp⟩
      · rintro ⟨D, hD, hall⟩
        cases D with
        | nil => exact Or.inr (by simpa using hD.symm)
        | cons d D =>
          rw [List.cons_append] at hD
          injection hD with h1 h2
          subst h1
          subst h2
          exact Or.inl ⟨D, rfl, fun x hx => hall x (by simp [hx])⟩
    · rw [if_neg h]
      simp only [List.mem_singleton]
      constructor
      · rintro rfl
        exact ⟨[], rfl, by simp⟩
      · rintro ⟨D, hD, hall⟩
        cases D with
        | nil => simpa using hD.symm
        | cons d D =>
          rw [List.cons_append] at hD
          injection hD with h1 h2
          subst h1
          exact absurd (hall c (by simp)) h

theorem runsPlus_mem (a : Atom) (s t : List Char) :
    t ∈ runsPlus a s ↔ ∃ D, D ≠ [] ∧ s = D ++ t ∧ ∀ c ∈ D, atomMatch a c = true := by
  cases s with
  | nil =>
    simp only [runsPlus, List.not_mem_nil, false_iff]
    rintro ⟨D, hne, hD, -⟩
    exact hne (List.append_eq_nil.mp hD.symm).1
  | cons c s =>
    simp only [runsPlus]
    by_cases h : atomMatch a c = true
    · rw [if_pos h]
      rw [runsStar_mem]
      constructor
      · rintro ⟨D, rfl, hall⟩
        refine ⟨c :: D, by simp, rfl, ?_⟩
        intro x hx
        rcases List.mem_cons.mp hx with rfl | hx
        · exact h
        · exact hall x hx
      · rintro ⟨D, hne, hD, hall⟩
        cases D with
        | nil => exact absurd rfl hne
        | cons d D =>
          rw [List.cons_append] at hD
          injection hD with h1 h2
          subst h1
          subst h2
          exact ⟨D, rfl, fun x hx => hall x (by simp [hx])⟩
    · rw [if_neg h]
      simp only [List.not_mem_nil, false_iff]
      rintro ⟨D, hne, hD, hall⟩
      cases D with
      | nil => exact absurd rfl hne
      | cons d D =>
        rw [List.cons_append] at hD
        injection hD with h1 h2
        subst h1
        exact absurd (hall c (by simp)) h

theorem litSeq_nil : litSeq [] = RE.eps := rfl

theorem litSeq_cons (c : Char) (w : List Char) :
    litSeq (c :: w) = RE.seq (RE.atom (Atom.lit c)) (litSeq w) := rfl

theorem runs_litSeq (w s t : List Char) :
    t ∈ runs (litSeq w) s ↔ s = w ++ t := by
  induction w generalizing s with
  | nil =>
    simp only [litSeq_nil, runs, List.mem_singleton, List.nil_append]
    exact eq_comm
  | cons c w ih =>
    rw [litSeq_cons]
    cases s with
    | nil => simp [runs]
    | cons d s =>
      simp only [runs, atomMatch, List.mem_flatMap]
      by_cases h : d = c
      · subst h
        simp only [decide_True, if_true, List.mem_singleton, List.cons_append,
          List.cons.injEq, true_and]
        constructor
        · rintro ⟨u, rfl, hu⟩
          exact (ih u).mp hu
        · intro hs
          exact ⟨s, rfl, (ih s).mpr hs⟩
      · simp [h]

theorem runs_seq_mem (r1 r2 : RE) (s t : List Char) :
    t ∈ runs (RE.seq r1 r2) s ↔ ∃ u, u ∈ runs r1 s ∧ t ∈ runs r2 u := by
  simp [runs, List.mem_flatMap]

theorem runs_litSeq_eq (w t : List Char) : runs (litSeq w) (w ++ t) = [t] := by
  induction w with
  | nil => simp [litSeq_nil, runs]
  | cons c w ih =>
    have hc : atomMatch (Atom.lit c) c = true := by simp [atomMatch]
    simp only [litSeq_cons, List.cons_append, runs, hc, if_true, List.flatMap_cons,
      List.flatMap_nil, List.append_nil]
    exact ih

theorem runs_lit3_eq (w1 w2 w3 t : List Char) :
    runs (RE.seq (litSeq w1) (RE.seq (litSeq w2) (litSeq w3)))
      (w1 ++ (w2 ++ (w3 ++ t))) = [t] := by
  simp only [runs, runs_litSeq_eq, List.flatMap_cons, List.flatMap_nil, List.append_nil]

theorem afterLit_append (w t : List Char) : afterLit w (w ++ t) = some t := by
  induction w with
  | nil => rfl
  | cons c w ih => simp [afterLit, ih]

theorem afterLit_eq_some (w s t : List Char) : afterLit w s = some t ↔ s = w ++ t := by
  induction w generalizing s with
  | nil => simp [afterLit, eq_comm]
  | cons c w ih =>
    cases s with
    | nil => simp [afterLit]
    | cons d s =>
      simp only [afterLit]
      by_cases h : d = c
      · subst h
        simp [ih]
      · simp [h]

theorem parseVendorPat_literal (vp : List Char) (acc : List RE)
    (h : ∀ c ∈ vp, pyMeta c = false) :
    parseVendorPat acc vp =
      some (acc.reverse ++ vp.map fun c => RE.atom (Atom.lit c)) := by
  induction vp generalizing acc with
  | nil => simp [parseVendorPat]
  | cons c rest ih =>
    have hc : pyMeta c = false := h c (by simp)
    have h1 : ¬ c = '.' := by rintro rfl; simp [pyMeta] at hc
    have h2 : ¬ c = '+' := by rintro rfl; simp [pyMeta] at hc
    have h3 : ¬ c = '*' := by rintro rfl; simp [pyMeta] at hc
    simp only [parseVendorPat]
    rw [if_neg h1, if_neg h2, if_neg h3, if_neg (by simp [hc])]
    rw [ih (RE.atom (Atom.lit c) :: acc) (fun x hx => h x (by simp [hx]))]
    simp

theorem acceptRegex?_literal (vp : List Char) (h : ∀ c ∈ vp, pyMeta c = false) :
    acceptRegex? (String.mk vp) = some (litSeq vp) := by
  unfold acceptRegex?
  have ht : (String.mk vp).toList = vp := rfl
  rw [ht, parseVendorPat_literal vp [] h]
  rfl

theorem takeWhile_boundary (p : Char → Bool) (D r : List Char) (c0 : Char)
    (hD : ∀ c ∈ D, p c = true) (hc : p c0 = false) :
    (D ++ c0 :: r).takeWhile p = D ∧ (D ++ c0 :: r).dropWhile p = c0 :: r := by
  induction D with
  | nil => simp [List.takeWhile_cons, List.dropWhile_cons, hc]
  | cons d D ih =>
    have hd : p d = true := hD d (by simp)
    have ih2 := ih fun c hcm => hD c (by simp [hcm])
    simp [List.cons_append, List.takeWhile_cons, List.dropWhile_cons, hd, ih2.1, ih2.2]

theorem runsStar_cons_pos (a : Atom) (c : Char) (s : List Char)
    (h : atomMatch a c = true) :
    runsStar a (c :: s) = runsStar a s ++ [c :: s] := by
  simp only [runsStar]
  rw [if_pos h]

theorem runsStar_boundary (a : Atom) (D r : List Char) (c0 : Char)
    (hD : ∀ c ∈ D, atomMatch a c = true) (hc : atomMatch a c0 = false) :
    ∃ l, runsStar a (D ++ c0 :: r) = (c0 :: r) :: l := by
  induction D with
  | nil =>
    refine ⟨[], ?_⟩
    simp only [List.nil_append, runsStar]
    rw [if_neg (by simp [hc])]
  | cons d D ih =>
    have hd : atomMatch a d = true := hD d (by simp)
    obtain ⟨l, hl⟩ := ih fun c hcm => hD c (by simp [hcm])
    refine ⟨l ++ [d :: (D ++ c0 :: r)], ?_⟩
    rw [List.cons_append, runsStar_cons_pos a d _ hd, hl]
    rfl

theorem acceptCapture_literal_eq (vp N suffix : List Char) (hN : N ≠ [])
    (hd : ∀ c ∈ N, c.isDigit = true) :
    acceptCapture (litSeq vp)
      ("application/vnd.".toList ++ (vp ++ (".v".toList ++ (N ++ '+' :: suffix)))) =
      some N := by
  have hplus : ∃ l, runsPlus Atom.digit (N ++ '+' :: suffix) = ('+' :: suffix) :: l := by
    rcases N with _ | ⟨n, N2⟩
    · exact absurd rfl hN
    · have hn : atomMatch Atom.digit n = true := hd n (by simp)
      obtain ⟨l, hl⟩ := runsStar_boundary Atom.digit N2 suffix '+'
        (fun c hcm => hd c (by simp [hcm])) (by decide)
      refine ⟨l, ?_⟩
      rw [List.cons_append]
      simp only [runsPlus]
      rw [if_pos hn]
      exact hl
  obtain ⟨l, hl⟩ := hplus
  obtain ⟨x, l2, hx⟩ := List.exists_cons_of_ne_nil (runsStar_ne_nil Atom.anyChar suffix)
  have hinner : runs (RE.seq (RE.atom (Atom.lit '+')) (RE.star Atom.anyChar)) ('+' :: suffix) =
      runsStar Atom.anyChar suffix := by
    simp only [runs]
    rw [if_pos (by simp [atomMatch])]
    simp
  have hlen : (N ++ '+' :: suffix).length - ('+' :: suffix).length = N.length := by
    simp
  unfold acceptCapture
  rw [runs_lit3_eq]
  simp only [List.findSome?_cons, List.findSome?_nil, hl, hinner, hx, List.head?_cons,
    Option.map_some', hlen, List.take_left]

/-- Claim C4 fails on the code as stated for *every* vendor prefix: the
prefix is interpolated into the pattern unescaped, so for the prefix `a+`
(whose `+` acts as a quantifier) the literal header
`application/vnd.a+.v1+json` does not match and the middleware keeps the
fallback version `"9"` instead of extracting `"1"`. -/
theorem c4_counterexample :
    middlewareCall (acceptRegex? "a+") "9" aPlusScope = some aPlusScopeOut ∧
    aPlusScopeOut.requested_version ≠ some "1" :=
  ⟨rfl, by decide⟩

/-- Claim C4 (amended): for every vendor prefix consisting only of characters
that are not regex metacharacters, every non-empty decimal digit string `N`
and every suffix, extraction on the header
`application/vnd.<prefix>.v<N>+<suffix>` captures exactly the string `N`. -/
theorem c4_literal_extraction (vp N suffix : List Char)
    (hvp : ∀ c ∈ vp, pyMeta c = false) (hN : N ≠ [])
    (hd : ∀ c ∈ N, c.isDigit = true) :
    extractVersion (String.mk vp)
      (String.mk ("application/vnd.".toList ++ vp ++ ".v".toList ++ N ++ '+' :: suffix)) =
      some (some (String.mk N)) := by
  unfold extractVersion
  rw [acceptRegex?_literal vp hvp]
  simp only [Option.map_some']
  have hs : (String.mk
        ("application/vnd.".toList ++ vp ++ ".v".toList ++ N ++ '+' :: suffix)).toList =
      "application/vnd.".toList ++ (vp ++ (".v".toList ++ (N ++ '+' :: suffix))) := by
    show "application/vnd.".toList ++ vp ++ ".v".toList ++ N ++ '+' :: suffix =
      "application/vnd.".toList ++ (vp ++ (".v".toList ++ (N ++ '+' :: suffix)))
    simp [List.append_assoc]
  rw [hs, acceptCapture_literal_eq vp N suffix hN hd]
  rfl

/-- Witness for the amended C4 at a concrete input: prefix `mytestapp`,
multi-digit version `123`, suffix `json`. -/
theorem c4_literal_extraction_witness :
    extractVersion (String.mk "mytestapp".toList)
      (String.mk ("application/vnd.".toList ++ "mytestapp".toList ++ ".v".toList ++
        "123".toList ++ '+' :: "json".toList)) =
      some (some (String.mk "123".toList)) :=
  c4_literal_extraction "mytestapp".toList "123".toList "json".toList
    (by decide) (by decide) (by decide)

theorem runs_plusStar_cons (u : List Char) :
    runs (RE.seq (RE.atom (Atom.lit '+')) (RE.star Atom.anyChar)) ('+' :: u) =
      runsStar Atom.anyChar u := by
  simp only [runs]
  rw [if_pos (by simp [atomMatch])]
  simp

theorem acceptCapture_isSome_eq_spec (vp t : List Char) :
    (acceptCapture (litSeq vp) t).isSome = specLiteralAcceptMatch vp t := by
  rw [Bool.eq_iff_iff]
  constructor
  · intro h
    simp only [acceptCapture, List.findSome?_isSome_iff, Option.isSome_map'] at h
    obtain ⟨s1, hs1, s2, hs2, hhead⟩ := h
    rw [runs_seq_mem] at hs1
    obtain ⟨u, hu, hs1⟩ := hs1
    rw [runs_seq_mem] at hs1
    obtain ⟨u2, hu2, hs1⟩ := hs1
    rw [runs_litSeq] at hu hu2 hs1
    rw [runsPlus_mem] at hs2
    obtain ⟨D, hDne, hsplit, hDdig⟩ := hs2
    rcases s2 with _ | ⟨c0, u3⟩
    · simp [runs] at hhead
    · by_cases hc0 : c0 = '+'
      · subst hc0
        subst hs1
        subst hu2
        subst hu
        subst hsplit
        cases D with
        | nil => exact absurd rfl hDne
        | cons d D2 =>
          have hb := takeWhile_boundary Char.isDigit (d :: D2) u3 '+'
            (fun c hc => hDdig c hc) (by decide)
          have ht2 : "application/vnd.".toList ++
              (vp ++ (".v".toList ++ ((d :: D2) ++ '+' :: u3))) =
              ("application/vnd.".toList ++ vp ++ ".v".toList) ++ ((d :: D2) ++ '+' :: u3) := by
            simp [List.append_assoc]
          simp only [specLiteralAcceptMatch, ht2, afterLit_append, hb.1, hb.2]
          simp
      · simp [runs, atomMatch, hc0] at hhead
  · intro h
    unfold specLiteralAcceptMatch at h
    rcases ha : afterLit ("application/vnd.".toList ++ vp ++ ".v".toList) t with _ | t1
    · rw [ha] at h
      simp at h
    · rw [ha] at h
      simp only [Bool.and_eq_true] at h
      obtain ⟨h1, h2⟩ := h
      rcases hdw : t1.dropWhile Char.isDigit with _ | ⟨c0, rest⟩
      · rw [hdw] at h2
        simp at h2
      · rw [hdw] at h2
        simp only [List.head?_cons, beq_iff_eq, Option.some.injEq] at h2
        subst h2
        have ht : t = ("application/vnd.".toList ++ vp ++ ".v".toList) ++ t1 :=
          (afterLit_eq_some _ _ _).mp ha
        have hsplit : t1.takeWhile Char.isDigit ++ '+' :: rest = t1 := by
          rw [← hdw]
          exact List.takeWhile_append_dropWhile _ _
        have hDne : t1.takeWhile Char.isDigit ≠ [] := by
          intro he
          rw [he] at h1
          simp at h1
        have hDdig : ∀ c ∈ t1.takeWhile Char.isDigit, atomMatch Atom.digit c = true :=
          fun c hc => List.mem_takeWhile_imp hc
        unfold acceptCapture
        simp only [List.findSome?_isSome_iff, Option.isSome_map']
        refine ⟨t1, ?_, '+' :: rest, ?_, ?_⟩
        · rw [runs_seq_mem]
          refine ⟨vp ++ (".v".toList ++ t1), ?_, ?_⟩
          · rw [runs_litSeq, ht]
            simp [List.append_assoc]
          · rw [runs_seq_mem]
            exact ⟨".v".toList ++ t1, by rw [runs_litSeq], by rw [runs_litSeq]⟩
        · rw [runsPlus_mem]
          exact ⟨t1.takeWhile Char.isDigit, hDne, hsplit.symm, hDdig⟩
        · rw [runs_plusStar_cons]
          obtain ⟨x, l2, hx⟩ := List.exists_cons_of_ne_nil (runsStar_ne_nil Atom.anyChar rest)
          rw [hx]
          simp

/-- Claim C7 fails on the code: the vendor prefix is interpolated into the
pattern unescaped.  With the metacharacter prefix `"."` the header
`application/vnd.X.v1+json` — which does not literally begin with
`application/vnd.` + `.` + `.v` — nevertheless matches the compiled pattern,
because the prefix `.` matches the `X` as a wildcard. -/
theorem c7_counterexample :
    acceptMatchesB "." "application/vnd.X.v1+json" = some true ∧
    specLiteralAcceptMatch ".".toList "application/vnd.X.v1+json".toList = false :=
  ⟨rfl, rfl⟩

/-- Claim C7 (amended): for every vendor prefix containing no regex
metacharacters, an Accept header matches the extraction pattern iff it
literally begins with `application/vnd.<prefix>.v`, one or more decimal
digits, and a `+` (prefixes with metacharacters act as patterns instead). -/
theorem c7_literal_pattern (vp : List Char) (s : String)
    (hvp : ∀ c ∈ vp, pyMeta c = false) :
    acceptMatchesB (String.mk vp) s = some (specLiteralAcceptMatch vp s.toList) := by
  unfold acceptMatchesB
  rw [acceptRegex?_literal vp hvp]
  simp only [Option.map_some']
  rw [acceptCapture_isSome_eq_spec]

/-- Witness for the amended C7 at a concrete input. -/
theorem c7_literal_pattern_witness :
    acceptMatchesB (String.mk "mytestapp".toList) "application/vnd.mytestapp.v7+json" =
      some (specLiteralAcceptMatch "mytestapp".toList
        "application/vnd.mytestapp.v7+json".toList) :=
  c7_literal_pattern "mytestapp".toList "application/vnd.mytestapp.v7+json" (by decide)
